import Mathlib

/-!
Verification development for the Trading Day Picks selection engine
(`app.js`, "Submit Version").  The JavaScript source is shallowly embedded:

* numbers are embedded as exact rationals `ℚ`; the two places where the
  source produces irrational values (`Math.sqrt` inside `stdev` and inside
  `corr`) are embedded into `ℝ` via `Real.sqrt`;
* a JavaScript `null` is embedded as `Option.none`;
* the single arithmetic expression of the engine that can produce
  `NaN`/`Infinity` on well-formed (finite) input — the unguarded division
  `last(vols) / sma(vols, 20)` — is embedded with an explicit JavaScript
  value type `JsVal` carrying the IEEE special values.  Every other
  division in the engine is syntactically guarded by a zero test in the
  source, so plain `ℚ` division is faithful there.

Constant names, function names and field names follow the source.
-/

namespace TradingDay

/-- One daily bar.  The source reads rows `[date, open, high, low, close,
volume]` (`r[1]`–`r[5]`); the date entry `r[0]` is never consumed by the
engine and is omitted. -/
structure Bar where
  o : ℚ
  h : ℚ
  l : ℚ
  c : ℚ
  v : ℚ
deriving DecidableEq

/-- The input map from ticker to rows, in key-insertion order
(JavaScript `for (const ticker in tickers)` enumeration order). -/
def TickerMap : Type := List (String × List Bar)

/-- Result of a JavaScript floating-point operation: a finite number or one
of the IEEE special values. -/
inductive JsVal where
  | num (q : ℚ)
  | inf
  | ninf
  | nan
deriving DecidableEq

/-- JavaScript division `a / b` for finite operands: finite unless `b = 0`,
in which case the sign of `a` selects `±Infinity`, and `0/0` is `NaN`.
(The rational embedding has no negative zero, so the `-0` divisor is not
represented; the engine's volume data never produces it.) -/
def jsDiv (a b : ℚ) : JsVal :=
  if b ≠ 0 then .num (a / b)
  else if 0 < a then .inf
  else if a < 0 then .ninf
  else .nan

/-- JavaScript comparison `x > 1` on a possibly-special value:
`NaN > 1` is false, `Infinity > 1` is true. -/
def jsGtOne : JsVal → Bool
  | .num q => decide (1 < q)
  | .inf => true
  | .ninf => false
  | .nan => false

-- ---- Config (competition style), lines 19-26 of the source ----

def BUY_N : ℕ := 4
def SHOW_N : ℕ := 10
def MIN_HISTORY : ℕ := 220
def CORR_LOOKBACK : ℕ := 60
def CORR_MAX : ℚ := 0.85
def LATE_WINDOW_DAYS : ℕ := 7

-- -------------------- Generic helpers --------------------

/-- Source `isDefensiveETF`: membership in the fixed defensive allowlist. -/
def isDefensiveETF (t : String) : Bool :=
  ["SPY", "QQQ", "IWM", "DIA", "XLV", "XLP", "TLT", "IEF"].contains t

/-- Source `last(arr) = arr[arr.length - 1]`.  Every call site in the engine
passes a nonempty array, so the JavaScript `undefined` on `[]` is
unreachable and a default of `0` is used. -/
def last (arr : List ℚ) : ℚ := arr.getLastD 0

/-- Source `sma(arr, n)`: arithmetic mean of the last `n` entries, `null`
if fewer than `n` entries exist.  The source loop sums
`arr[arr.length-n .. arr.length-1]`, i.e. the last `n` entries. -/
def sma (arr : List ℚ) (n : ℕ) : Option ℚ :=
  if arr.length < n then none
  else some ((arr.drop (arr.length - n)).sum / n)

/-- Source `ret(arr, n) = arr[-1]/arr[-1-n] - 1`, `null` on insufficient
length or a zero denominator. -/
def ret (arr : List ℚ) (n : ℕ) : Option ℚ :=
  if arr.length ≤ n then none
  else
    let now := last arr
    let past := arr.getD (arr.length - 1 - n) 0
    if past = 0 then none else some (now / past - 1)

/-- Source `returns(closes, window)`: the single-day returns
`closes[i]/closes[i-1] - 1` for `i` from `max(1, length - window)` to
`length - 1`.  Note that for `length > window` this yields `window`
returns (the loop starts at `length - window`), not `window - 1`.
A zero close would make the JavaScript division non-finite; the call
sites relevant to the claims below are exercised only at inputs with
nonzero closes, where rational division is faithful. -/
def returns (closes : List ℚ) (window : ℕ) : List ℚ :=
  let start := max 1 (closes.length - window)
  (List.range (closes.length - start)).map fun k =>
    closes.getD (start + k) 0 / closes.getD (start + k - 1) 0 - 1

/-- Source `mean(xs)`.  Callers guarantee `xs` nonempty (the JavaScript
`NaN` on `[]` is unreachable); on `[]` the rational embedding yields `0`. -/
def mean (xs : List ℚ) : ℚ := xs.sum / xs.length

/-- The population variance computed inside the source `stdev`:
`Σ (x - mean)² / n`, and `0` for the empty list (where the JavaScript
`stdev` yields `NaN`; both are rejected by the caller's
`!Number.isFinite(vol20) || vol20 <= 0` guard, see `scoreInstr`). -/
def stdevSq (xs : List ℚ) : ℚ :=
  if xs.length = 0 then 0
  else (xs.map fun x => (x - mean xs) ^ 2).sum / xs.length

/-- Source `stdev(xs) = Math.sqrt(variance)`. -/
noncomputable def stdev (xs : List ℚ) : ℝ := Real.sqrt (stdevSq xs)

/-- Source `atrPercent(highs, lows, closes, period)`: mean of the daily
true range over the last `period` bars, divided by the latest close;
`null` if `closes.length <= period` or the latest close is zero
(JavaScript falsiness of `lastClose`). -/
def atrPercent (highs lows closes : List ℚ) (period : ℕ) : Option ℚ :=
  if closes.length ≤ period then none
  else
    let L := highs.length
    let sumTR := ((List.range period).map fun k =>
      let i := L - period + k
      let hi := highs.getD i 0
      let lo := lows.getD i 0
      let pc := closes.getD (i - 1) 0
      max (hi - lo) (max |hi - pc| |lo - pc|)).sum
    let atr := sumTR / period
    let lastClose := last closes
    if lastClose = 0 then none else some (atr / lastClose)

/-- Source `relStrength60(tickersObj, tkr)`: the instrument's 60-day return
minus SPY's 60-day return; `null` if either series is missing, shorter
than 70 bars, or has a `null` 60-day return. -/
def relStrength60 (tickersObj : TickerMap) (tkr : String) : Option ℚ :=
  match List.lookup "SPY" tickersObj, List.lookup tkr tickersObj with
  | some spy, some x =>
    if spy.length < 70 ∨ x.length < 70 then none
    else
      let spyCloses := spy.map (·.c)
      let xCloses := x.map (·.c)
      match ret spyCloses 60, ret xCloses 60 with
      | some spyR, some xR => some (xR - spyR)
      | _, _ => none
  | _, _ => none

-- -------------------- Correlation --------------------

/-- The three accumulator sums of the source `corr` loop, over the aligned
last-`n` slices (`n = min(a.length, b.length)`): the cross term `num`,
and the two squared-deviation terms `da` and `db`. -/
def corrStats (a b : List ℚ) : ℚ × ℚ × ℚ :=
  let n := min a.length b.length
  let a2 := a.drop (a.length - n)
  let b2 := b.drop (b.length - n)
  let ma := mean a2
  let mb := mean b2
  (((a2.zip b2).map fun p => (p.1 - ma) * (p.2 - mb)).sum,
   (a2.map fun x => (x - ma) ^ 2).sum,
   (b2.map fun x => (x - mb) ^ 2).sum)

/-- Source `corr(a, b)`: Pearson correlation of the aligned last-`n`
slices; `NaN` (here `none`) when `n < 10` or the denominator
`Math.sqrt(da) * Math.sqrt(db)` is zero.  Since `da, db ≥ 0`, that
denominator vanishes exactly when `da = 0 ∨ db = 0`
(lemma `sqrt_mul_sqrt_eq_zero_iff` below), which is the decidable test
used here. -/
noncomputable def corr (a b : List ℚ) : Option ℝ :=
  if min a.length b.length < 10 then none
  else
    let s := corrStats a b
    if s.2.1 = 0 ∨ s.2.2 = 0 then none
    else some ((s.1 : ℝ) / (Real.sqrt s.2.1 * Real.sqrt s.2.2))

/-- Decidable embedding of the source test
`Number.isFinite(corr(a,b)) && corr(a,b) > CORR_MAX` used by the
diversification selector: the correlation is a finite number exceeding
`0.85` iff `num > 0` and `num² > 0.85² · da · db` with a nonzero
denominator (lemma `corrExceeds_iff` below proves the equivalence with
`corr`). -/
def corrExceeds (a b : List ℚ) : Bool :=
  if min a.length b.length < 10 then false
  else
    let s := corrStats a b
    decide (¬(s.2.1 = 0 ∨ s.2.2 = 0) ∧ 0 < s.1 ∧ CORR_MAX ^ 2 * (s.2.1 * s.2.2) < s.1 ^ 2)

-- -------------------- Scoring (run loop, lines 119-151) --------------------

/-- Regime and calendar context consumed by the scoring block. -/
structure Ctx where
  riskOn : Bool
  riskOnShort : Bool
  lateMode : Bool
deriving DecidableEq

/-- The volume-surge bonus `Math.min(0.06, 0.04 * (volSurge - 1))` at a
value that passed `volSurge > 1`: for `Infinity` the JavaScript minimum is
`0.06`.  (`-Infinity` and `NaN` never pass `> 1` and are unreachable.) -/
def surgeBonus : JsVal → ℝ
  | .num q => min 0.06 (0.04 * ((q : ℝ) - 1))
  | .inf => 0.06
  | .ninf => 0
  | .nan => 0

/-- The composite-score block of the source `run` loop (lines 119-151),
as a function of the already-computed indicators:

* `volPenalty = (riskOn ? 0.30 : 0.55) (+0.20 if lateMode)`;
* base `0.45·r60 + 0.25·r20 + (trendStrong ? 0.06 : 0) - volPenalty·vol20`;
* staleness `-0.01·min(5, streak)`;
* `×0.75` when `riskOnShort` is off;
* `+0.20·rs60` when available;
* volume-surge bonus when `volSurge > 1`;
* `×max(0.5, 1 - atr14p/0.20)` when `atr14p` is available;
* `+0.02` stickiness in `lateMode` for previous buy-list members. -/
noncomputable def computeScore (ctx : Ctx) (r20 r60 : ℚ) (trendStrong : Bool)
    (vol20 : ℝ) (streak : ℕ) (rs60 : Option ℚ) (volSurge : Option JsVal)
    (atr14p : Option ℚ) (inPrevBuy4 : Bool) : ℝ :=
  let volPenalty : ℝ :=
    (if ctx.riskOn then 0.30 else 0.55) + (if ctx.lateMode then 0.20 else 0)
  let s0 : ℝ := 0.45 * (r60 : ℝ) + 0.25 * (r20 : ℝ) +
    (if trendStrong then 0.06 else 0) - volPenalty * vol20
  let s1 := s0 - 0.01 * (min 5 streak : ℕ)
  let s2 := if ctx.riskOnShort then s1 else s1 * 0.75
  let s3 := match rs60 with
    | some v => s2 + 0.20 * (v : ℝ)
    | none => s2
  let s4 := match volSurge with
    | some s => if jsGtOne s then s3 + surgeBonus s else s3
    | none => s3
  let s5 := match atr14p with
    | some a2 => s4 * max 0.5 (1 - (a2 : ℝ) / 0.20)
    | none => s4
  if ctx.lateMode && inPrevBuy4 then s5 + 0.02 else s5

/-- One Candidate record, in the field order of the source
`results.push` (lines 156-169). -/
structure Candidate where
  ticker : String
  lastClose : ℚ
  r20 : ℚ
  r60 : ℚ
  vol20 : ℝ
  atr14p : Option ℚ
  volSurge : Option JsVal
  rs60 : Option ℚ
  trendStrong : Bool
  eligible : Bool
  score : ℝ
  retSeries : List ℚ

/-- One iteration of the source `run` loop (lines 74-170): compute
indicators for `ticker`, apply the exclusion filters, and emit the
Candidate record, or `none` when a `continue` fires.  Two notes on the
embedding of the guards:

* `if (!Number.isFinite(lastClose)) continue` is identically false over
  rationals and is omitted;
* `if (!Number.isFinite(vol20) || vol20 <= 0) continue` with
  `vol20 = Math.sqrt(variance)` fires exactly when `variance ≤ 0`
  (`Real.sqrt` of a rational is finite, and `√q ≤ 0 ↔ q ≤ 0`; lemma
  `stdev_le_zero_iff` below), which is the decidable test used here. -/
noncomputable def scoreInstr (tickers : TickerMap) (ticker : String)
    (rows : List Bar) (ctx : Ctx) (streaks : List (String × ℕ))
    (prevBuy4 : List String) : Option Candidate :=
  if rows.length < MIN_HISTORY then none
  else
    let highs := rows.map (·.h)
    let lows := rows.map (·.l)
    let closes := rows.map (·.c)
    let vols := rows.map (·.v)
    let lastClose := last closes
    match sma closes 20, sma closes 50, sma closes 200 with
    | some ma20, some ma50, some ma200 =>
      match ret closes 10, ret closes 20, ret closes 60 with
      | some r10, some r20, some r60 =>
        if 0 < r20 ∧ r10 < 0.35 * r20 then none
        else if stdevSq (returns closes 21) ≤ 0 then none
        else
          let vol20 : ℝ := stdev (returns closes 21)
          let atr14p := atrPercent highs lows closes 14
          let volSurge : Option JsVal :=
            if 21 ≤ vols.length then
              match sma vols 20 with
              | some m => some (jsDiv (last vols) m)
              | none => none
            else none
          let rs60 := relStrength60 tickers ticker
          let trendStrong : Bool :=
            decide (lastClose > ma20) && decide (ma20 > ma50) && decide (ma50 > ma200)
          let eligible : Bool :=
            decide (lastClose > ma20) &&
              (ctx.riskOn || (trendStrong || isDefensiveETF ticker))
          let streak := (List.lookup ticker streaks).getD 0
          let score := computeScore ctx r20 r60 trendStrong vol20 streak rs60
            volSurge atr14p (prevBuy4.contains ticker)
          let retSeries := returns closes (CORR_LOOKBACK + 1)
          some ⟨ticker, lastClose, r20, r60, vol20, atr14p, volSurge, rs60,
            trendStrong, eligible, score, retSeries⟩
      | _, _, _ => none
    | _, _, _ => none

-- -------------------- Diversification (lines 315-337) --------------------

/-- The greedy phase of the source `pickWithDiversification` loop:
walk the ranked list, stop at `n` picks, skip candidates whose return
series is shorter than `CORR_LOOKBACK`, and skip candidates too similar
(finite correlation above `CORR_MAX`) to any already-accepted pick. -/
def greedyPhase (n : ℕ) : List Candidate → List Candidate → List Candidate
  | [], picks => picks
  | cand :: rest, picks =>
    if n ≤ picks.length then picks
    else if cand.retSeries.length < CORR_LOOKBACK then greedyPhase n rest picks
    else if picks.any fun p => corrExceeds cand.retSeries p.retSeries then
      greedyPhase n rest picks
    else greedyPhase n rest (picks ++ [cand])

/-- The top-up pass of the source `pickWithDiversification`: re-scan the
ranked list and append any candidate whose ticker is not yet picked,
ignoring correlation, until `n` picks are reached. -/
def topUp (n : ℕ) : List Candidate → List Candidate → List Candidate
  | [], picks => picks
  | cand :: rest, picks =>
    if n ≤ picks.length then picks
    else if picks.any fun p => p.ticker = cand.ticker then topUp n rest picks
    else topUp n rest (picks ++ [cand])

/-- Source `pickWithDiversification(eligibleList, n)`: greedy phase, then
the top-up pass when fewer than `n` were accepted, then `slice(0, n)`. -/
def pickWithDiversification (eligibleList : List Candidate) (n : ℕ) :
    List Candidate :=
  let picks := greedyPhase n eligibleList []
  let picks := if picks.length < n then topUp n eligibleList picks else picks
  picks.take n

-- -------------------- Regime (lines 359-371) --------------------

/-- The regime record returned by `computeMarketRegime`.  The `NaN`
markers of the degenerate branch are embedded as `none`. -/
structure RegimeState where
  riskOn : Bool
  riskOnShort : Bool
  spyLast : Option ℚ
  spyMA200 : Option ℚ
  spyMA50 : Option ℚ
deriving DecidableEq

/-- Source `computeMarketRegime(tickers)`: fail open (both flags `true`,
metrics `NaN`) when SPY is absent or shorter than 210 bars; otherwise
compare the last close against MA200 and MA50. -/
def computeMarketRegime (tickers : TickerMap) : RegimeState :=
  match List.lookup "SPY" tickers with
  | none => ⟨true, true, none, none, none⟩
  | some spy =>
    if spy.length < 210 then ⟨true, true, none, none, none⟩
    else
      let spyCloses := spy.map (·.c)
      let spyLast := last spyCloses
      let spyMA200 := sma spyCloses 200
      let spyMA50 := sma spyCloses 50
      let riskOn := match spyMA200 with
        | some m => decide (spyLast > m)
        | none => false
      let riskOnShort := match spyMA50 with
        | some m => decide (spyLast > m)
        | none => false
      ⟨riskOn, riskOnShort, some spyLast, spyMA200, spyMA50⟩

-- -------------------- Ranking (lines 172-173) --------------------

/-- Sort rank of a candidate under the comparator
`(b.eligible - a.eligible)`: eligible candidates first. -/
def candRank (a : Candidate) : ℕ := if a.eligible then 0 else 1

/-- The ordering realised by the source comparator
`(a, b) => (b.eligible - a.eligible) || (b.score - a.score)`:
`a` may precede `b` iff `a` is eligible and `b` is not, or both have the
same eligibility and `a`'s score is at least `b`'s. -/
def candBefore (a b : Candidate) : Prop :=
  candRank a < candRank b ∨ (candRank a = candRank b ∧ b.score ≤ a.score)

noncomputable instance : DecidableRel candBefore := fun _ _ =>
  Classical.dec _

instance : IsTotal Candidate candBefore :=
  ⟨fun a b => by
    rcases lt_trichotomy (candRank a) (candRank b) with h | h | h
    · exact Or.inl (Or.inl h)
    · rcases le_total b.score a.score with hs | hs
      · exact Or.inl (Or.inr ⟨h, hs⟩)
      · exact Or.inr (Or.inr ⟨h.symm, hs⟩)
    · exact Or.inr (Or.inl h)⟩

instance : IsTrans Candidate candBefore :=
  ⟨fun a b c hab hbc => by
    rcases hab with h1 | ⟨h1, s1⟩ <;> rcases hbc with h2 | ⟨h2, s2⟩
    · exact Or.inl (h1.trans h2)
    · exact Or.inl (h2 ▸ h1)
    · exact Or.inl (h1 ▸ h2)
    · exact Or.inr ⟨h1.trans h2, s2.trans s1⟩⟩

/-- All Candidate records emitted by one source `run` over the input map,
in enumeration order (the `results` array before sorting). -/
noncomputable def runCandidates (tickers : TickerMap) (ctx : Ctx)
    (streaks : List (String × ℕ)) (prevBuy4 : List String) :
    List Candidate :=
  tickers.filterMap fun p => scoreInstr tickers p.1 p.2 ctx streaks prevBuy4

/-- The `results` array after the source sort
`results.sort((a, b) => (b.eligible - a.eligible) || (b.score - a.score))`,
modelled as a sort of `runCandidates` by `candBefore`. -/
noncomputable def rankedResults (tickers : TickerMap) (ctx : Ctx)
    (streaks : List (String × ℕ)) (prevBuy4 : List String) :
    List Candidate :=
  List.insertionSort candBefore (runCandidates tickers ctx streaks prevBuy4)

-- -------------------- Streak update (lines 179-181) --------------------

/-- The streak-update block of `run`: a fresh mapping containing exactly
the tickers of the new buy-list, each bound to one plus its previous
count (`(streaks[p.ticker] || 0) + 1`). -/
def newStreaks (buy4 : List Candidate) (streaks : List (String × ℕ)) :
    List (String × ℕ) :=
  buy4.map fun p => (p.ticker, (List.lookup p.ticker streaks).getD 0 + 1)

-- -------------------- Specification-side definitions --------------------

/-- The last 20 single-day returns `close[i]/close[i-1] - 1` of a series,
written per the specification.  For a series of length `≥ 21` this is the
20-entry daily-return window the specification prescribes for the
volatility field. -/
def last20Returns (closes : List ℚ) : List ℚ :=
  (List.range 20).map fun k =>
    closes.getD (closes.length - 20 + k) 0 / closes.getD (closes.length - 21 + k) 0 - 1

/-- Modelled from the spec ("volatility: population standard deviation of
a 20-trading-day daily-return window", and the claim's "exactly the
instrument's last 20 single-day returns"): the population standard
deviation of `last20Returns`. -/
noncomputable def specVol20 (closes : List ℚ) : ℝ :=
  Real.sqrt (stdevSq (last20Returns closes))

/-- A field value is "finite or the explicit unavailable marker": `null`
or a finite number, never `NaN`/`±Infinity`. -/
def finiteOrNull : Option JsVal → Prop
  | none => True
  | some (.num _) => True
  | some _ => False

-- -------------------- Concrete inputs for the claims --------------------

/-- A bar whose four prices all equal `c` and whose volume is `v`. -/
def barW (c v : ℚ) : Bar := ⟨c, c, c, c, v⟩

/-- A 220-bar test series: 160 bars at 90, then 59 bars at 100, then one
bar at 101, all with volume `v`. -/
def rowsW (v : ℚ) : List Bar :=
  List.replicate 160 (barW 90 v) ++ List.replicate 59 (barW 100 v) ++ [barW 101 v]

/-- The close column of `rowsW`. -/
def closesW : List ℚ :=
  List.replicate 160 90 ++ List.replicate 59 100 ++ [101]

/-- A minimal candidate with a zero-variance 60-entry return series,
used to exercise the diversification selector. -/
noncomputable def candW (t : String) : Candidate :=
  ⟨t, 0, 0, 0, 0, none, none, none, false, true, 0, List.replicate 60 0⟩

/-- A two-candidate ranked list with distinct tickers. -/
noncomputable def listW : List Candidate := [candW "A", candW "B"]

-- ==================== Helper lemmas ====================

/-- Sums of squared deviations are nonnegative. -/
lemma sq_dev_sum_nonneg (l : List ℚ) (m : ℚ) :
    0 ≤ (l.map fun x => (x - m) ^ 2).sum := by
  apply List.sum_nonneg
  intro x hx
  rcases List.mem_map.1 hx with ⟨y, _, rfl⟩
  positivity

/-- The source's correlation denominator `Math.sqrt(da) * Math.sqrt(db)`
vanishes exactly when `da = 0` or `db = 0`, for nonnegative `da`, `db`. -/
lemma sqrt_mul_sqrt_eq_zero_iff {q₁ q₂ : ℚ} (h₁ : 0 ≤ q₁) (h₂ : 0 ≤ q₂) :
    Real.sqrt q₁ * Real.sqrt q₂ = 0 ↔ q₁ = 0 ∨ q₂ = 0 := by
  rw [mul_eq_zero, Real.sqrt_eq_zero' , Real.sqrt_eq_zero']
  constructor
  · rintro (h | h)
    · exact Or.inl (le_antisymm (by exact_mod_cast h) h₁)
    · exact Or.inr (le_antisymm (by exact_mod_cast h) h₂)
  · rintro (rfl | rfl) <;> simp

/-- The variance computed by `stdevSq` is nonnegative. -/
lemma stdevSq_nonneg (xs : List ℚ) : 0 ≤ stdevSq xs := by
  unfold stdevSq
  split
  · exact le_refl 0
  · exact div_nonneg (sq_dev_sum_nonneg _ _) (by positivity)

/-- The source guard `!Number.isFinite(vol20) || vol20 <= 0` on
`vol20 = Math.sqrt(variance)` is equivalent to `variance ≤ 0`:
over exact arithmetic `Real.sqrt` is always finite, and the square root
of a nonnegative rational is nonpositive iff the rational is zero. -/
lemma stdev_le_zero_iff (xs : List ℚ) : stdev xs ≤ 0 ↔ stdevSq xs ≤ 0 := by
  unfold stdev
  constructor
  · intro h
    have h0 : Real.sqrt (stdevSq xs) = 0 := le_antisymm h (Real.sqrt_nonneg _)
    rw [Real.sqrt_eq_zero'] at h0
    exact_mod_cast h0
  · intro h
    have : Real.sqrt (stdevSq xs) = 0 := Real.sqrt_eq_zero'.2 (by exact_mod_cast h)
    simp [this]

/-- Zipping two equal-length replicated lists replicates the pair. -/
lemma zip_replicate_eq {α β : Type} (n : ℕ) (a : α) (b : β) :
    (List.replicate n a).zip (List.replicate n b) = List.replicate n (a, b) := by
  induction n with
  | zero => rfl
  | succ k ih => simp [List.replicate_succ, ih]

/-- Swapping the arguments of `corrStats` swaps `da` and `db` and keeps
the cross term. -/
lemma corrStats_swap (a b : List ℚ) :
    corrStats b a = ((corrStats a b).1, (corrStats a b).2.2, (corrStats a b).2.1) := by
  unfold corrStats
  have hmin : min b.length a.length = min a.length b.length := Nat.min_comm _ _
  simp only [hmin]
  set n := min a.length b.length with hn
  set a2 := a.drop (a.length - n)
  set b2 := b.drop (b.length - n)
  refine Prod.ext ?_ (Prod.ext rfl rfl)
  show ((b2.zip a2).map fun p => (p.1 - mean b2) * (p.2 - mean a2)).sum =
    ((a2.zip b2).map fun p => (p.1 - mean a2) * (p.2 - mean b2)).sum
  rw [← List.zip_swap a2 b2, List.map_map]
  congr 1
  ext p
  simp [mul_comm]

/-- Pearson correlation, as implemented, is symmetric. -/
lemma corr_swap (a b : List ℚ) : corr a b = corr b a := by
  unfold corr
  rw [corrStats_swap a b, Nat.min_comm b.length a.length]
  rcases Nat.lt_or_ge (min a.length b.length) 10 with h | h
  · simp [h]
  · simp only [if_neg (Nat.not_lt.2 h)]
    by_cases hz : (corrStats a b).2.1 = 0 ∨ (corrStats a b).2.2 = 0
    · rw [if_pos hz, if_pos hz.symm]
    · push_neg at hz
      rw [if_neg (by tauto), if_neg (by tauto)]
      rw [mul_comm]

/-- Both squared-deviation sums of `corrStats` are nonnegative. -/
lemma corrStats_nonneg (a b : List ℚ) :
    0 ≤ (corrStats a b).2.1 ∧ 0 ≤ (corrStats a b).2.2 := by
  unfold corrStats
  exact ⟨sq_dev_sum_nonneg _ _, sq_dev_sum_nonneg _ _⟩

/-- The decidable test `corrExceeds` holds exactly when the source
correlation is a finite number strictly above `CORR_MAX` — the test
`Number.isFinite(c) && c > CORR_MAX` of the selector loop. -/
lemma corrExceeds_iff (a b : List ℚ) :
    corrExceeds a b = true ↔ ∃ v, corr a b = some v ∧ (CORR_MAX : ℝ) < v := by
  obtain ⟨hda, hdb⟩ := corrStats_nonneg a b
  unfold corrExceeds corr
  rcases Nat.lt_or_ge (min a.length b.length) 10 with h | h
  · simp [h]
  · simp only [if_neg (Nat.not_lt.2 h)]
    by_cases hz : (corrStats a b).2.1 = 0 ∨ (corrStats a b).2.2 = 0
    · simp [hz]
    · push_neg at hz
      rw [if_neg (by tauto)]
      set num := (corrStats a b).1
      set da := (corrStats a b).2.1
      set db := (corrStats a b).2.2
      have hda' : (0:ℝ) < (da : ℝ) := by
        exact_mod_cast lt_of_le_of_ne hda (Ne.symm hz.1)
      have hdb' : (0:ℝ) < (db : ℝ) := by
        exact_mod_cast lt_of_le_of_ne hdb (Ne.symm hz.2)
      have hden : (0:ℝ) < Real.sqrt da * Real.sqrt db :=
        mul_pos (Real.sqrt_pos.2 hda') (Real.sqrt_pos.2 hdb')
      have hsq : Real.sqrt (da : ℝ) * Real.sqrt (db : ℝ) =
          Real.sqrt ((da : ℝ) * (db : ℝ)) :=
        (Real.sqrt_mul hda'.le _).symm
      have hM : (0:ℝ) ≤ (CORR_MAX : ℝ) := by norm_num [CORR_MAX]
      have key : ((CORR_MAX : ℝ) < (num : ℝ) / (Real.sqrt da * Real.sqrt db)) ↔
          (0 < num ∧ CORR_MAX ^ 2 * (da * db) < num ^ 2) := by
        rw [lt_div_iff₀ hden, hsq]
        have hrw : Real.sqrt (((CORR_MAX : ℝ)) ^ 2 * ((da : ℝ) * (db : ℝ))) =
            (CORR_MAX : ℝ) * Real.sqrt ((da : ℝ) * (db : ℝ)) := by
          rw [Real.sqrt_mul (by positivity : (0:ℝ) ≤ ((CORR_MAX : ℝ)) ^ 2),
            Real.sqrt_sq hM]
        rw [← hrw]
        constructor
        · intro hlt
          have hnum : (0:ℝ) < (num : ℝ) :=
            lt_of_le_of_lt (Real.sqrt_nonneg _) hlt
          have := (Real.sqrt_lt' hnum).1 hlt
          constructor
          · exact_mod_cast hnum
          · have : ((CORR_MAX:ℝ)) ^ 2 * ((da:ℝ) * (db:ℝ)) < (num:ℝ) ^ 2 := this
            exact_mod_cast this
        · rintro ⟨hnum, hlt⟩
          have hnum' : (0:ℝ) < (num : ℝ) := by exact_mod_cast hnum
          refine (Real.sqrt_lt' hnum').2 ?_
          exact_mod_cast hlt
      constructor
      · intro hdec
        have := of_decide_eq_true hdec
        exact ⟨_, rfl, key.2 ⟨this.2.1, this.2.2⟩⟩
      · rintro ⟨v, hv, hlt⟩
        have hveq : v = (num : ℝ) / (Real.sqrt da * Real.sqrt db) :=
          (Option.some.injEq _ _ ▸ hv).symm
        subst hveq
        have := key.1 hlt
        exact decide_eq_true (by tauto)

/-- Invariant of the greedy loop: every pick is checked (via
`corrExceeds`) against every earlier pick before being appended, and
short return series never pass the length guard. -/
lemma greedyPhase_corr (n : ℕ) (l : List Candidate) :
    ∀ acc : List Candidate,
    (acc.Pairwise fun p q => corrExceeds q.retSeries p.retSeries = false) →
    (∀ c ∈ acc, CORR_LOOKBACK ≤ c.retSeries.length) →
    ((greedyPhase n l acc).Pairwise fun p q =>
        corrExceeds q.retSeries p.retSeries = false) ∧
      ∀ c ∈ greedyPhase n l acc, CORR_LOOKBACK ≤ c.retSeries.length := by
  induction l with
  | nil => intro acc h1 h2; exact ⟨h1, h2⟩
  | cons cand rest ih =>
    intro acc h1 h2
    rw [greedyPhase]
    by_cases hfull : n ≤ acc.length
    · rw [if_pos hfull]; exact ⟨h1, h2⟩
    · rw [if_neg hfull]
      by_cases hshort : cand.retSeries.length < CORR_LOOKBACK
      · rw [if_pos hshort]; exact ih acc h1 h2
      · rw [if_neg hshort]
        by_cases hany : (acc.any fun p => corrExceeds cand.retSeries p.retSeries) = true
        · rw [if_pos hany]; exact ih acc h1 h2
        · rw [if_neg hany]
          apply ih
          · rw [List.pairwise_append]
            refine ⟨h1, List.pairwise_singleton _ _, ?_⟩
            intro p hp q hq
            rw [List.mem_singleton] at hq
            subst hq
            rcases Bool.eq_false_or_eq_true
              (corrExceeds q.retSeries p.retSeries) with ht | hf
            · exact absurd (List.any_eq_true.2 ⟨p, hp, ht⟩) hany
            · exact hf
          · intro c hc
            rcases List.mem_append.1 hc with hc | hc
            · exact h2 c hc
            · rw [List.mem_singleton] at hc
              subst hc
              exact Nat.not_lt.1 hshort

/-- The greedy phase only appends: its result is the initial accumulator
followed by a sublist of the scanned list. -/
lemma greedyPhase_extends (n : ℕ) (l : List Candidate) :
    ∀ acc, ∃ e, greedyPhase n l acc = acc ++ e ∧ e.Sublist l := by
  induction l with
  | nil => intro acc; exact ⟨[], by simp [greedyPhase]⟩
  | cons cand rest ih =>
    intro acc
    rw [greedyPhase]
    by_cases hfull : n ≤ acc.length
    · rw [if_pos hfull]; exact ⟨[], by simp⟩
    · rw [if_neg hfull]
      by_cases hshort : cand.retSeries.length < CORR_LOOKBACK
      · rw [if_pos hshort]
        obtain ⟨e, he, hs⟩ := ih acc
        exact ⟨e, he, hs.cons _⟩
      · rw [if_neg hshort]
        by_cases hany : (acc.any fun p => corrExceeds cand.retSeries p.retSeries) = true
        · rw [if_pos hany]
          obtain ⟨e, he, hs⟩ := ih acc
          exact ⟨e, he, hs.cons _⟩
        · rw [if_neg hany]
          obtain ⟨e, he, hs⟩ := ih (acc ++ [cand])
          exact ⟨cand :: e, by simpa using he, hs.cons₂ _⟩

/-- The greedy phase never exceeds the target count. -/
lemma greedyPhase_length_le (n : ℕ) (l : List Candidate) :
    ∀ acc, acc.length ≤ n → (greedyPhase n l acc).length ≤ n := by
  induction l with
  | nil => intro acc h; exact h
  | cons cand rest ih =>
    intro acc h
    rw [greedyPhase]
    by_cases hfull : n ≤ acc.length
    · rw [if_pos hfull]; exact h
    · rw [if_neg hfull]
      by_cases hshort : cand.retSeries.length < CORR_LOOKBACK
      · rw [if_pos hshort]; exact ih acc h
      · rw [if_neg hshort]
        by_cases hany : (acc.any fun p => corrExceeds cand.retSeries p.retSeries) = true
        · rw [if_pos hany]; exact ih acc h
        · rw [if_neg hany]
          exact ih _ (by simpa using Nat.lt_of_not_le hfull)

/-- The top-up pass only appends elements of the scanned list. -/
lemma topUp_extends (n : ℕ) (scan : List Candidate) :
    ∀ acc, ∃ e, topUp n scan acc = acc ++ e ∧ ∀ c ∈ e, c ∈ scan := by
  induction scan with
  | nil => intro acc; exact ⟨[], by simp [topUp]⟩
  | cons cand rest ih =>
    intro acc
    rw [topUp]
    by_cases hfull : n ≤ acc.length
    · rw [if_pos hfull]; exact ⟨[], by simp⟩
    · rw [if_neg hfull]
      by_cases hmem : (acc.any fun p => p.ticker = cand.ticker) = true
      · rw [if_pos hmem]
        obtain ⟨e, he, hs⟩ := ih acc
        exact ⟨e, he, fun c hc => List.mem_cons_of_mem _ (hs c hc)⟩
      · rw [if_neg hmem]
        obtain ⟨e, he, hs⟩ := ih (acc ++ [cand])
        refine ⟨cand :: e, by simpa using he, ?_⟩
        intro c hc
        rcases List.mem_cons.1 hc with rfl | hc
        · exact List.mem_cons_self _ _
        · exact List.mem_cons_of_mem _ (hs c hc)

/-- The top-up pass never exceeds the target count. -/
lemma topUp_length_le (n : ℕ) (scan : List Candidate) :
    ∀ acc, acc.length ≤ n → (topUp n scan acc).length ≤ n := by
  induction scan with
  | nil => intro acc h; exact h
  | cons cand rest ih =>
    intro acc h
    rw [topUp]
    by_cases hfull : n ≤ acc.length
    · rw [if_pos hfull]; exact h
    · rw [if_neg hfull]
      by_cases hmem : (acc.any fun p => p.ticker = cand.ticker) = true
      · rw [if_pos hmem]; exact ih acc h
      · rw [if_neg hmem]
        exact ih _ (by simpa using Nat.lt_of_not_le hfull)

/-- The top-up pass preserves distinctness of picked tickers. -/
lemma topUp_tickers_nodup (n : ℕ) (scan : List Candidate) :
    ∀ acc, (acc.map (·.ticker)).Nodup →
      ((topUp n scan acc).map (·.ticker)).Nodup := by
  induction scan with
  | nil => intro acc h; exact h
  | cons cand rest ih =>
    intro acc h
    rw [topUp]
    by_cases hfull : n ≤ acc.length
    · rw [if_pos hfull]; exact h
    · rw [if_neg hfull]
      by_cases hmem : (acc.any fun p => p.ticker = cand.ticker) = true
      · rw [if_pos hmem]; exact ih acc h
      · rw [if_neg hmem]
        apply ih
        rw [List.map_append]
        refine List.Nodup.append h (by simp) ?_
        intro t ht ht'
        simp only [List.map_cons, List.map_nil, List.mem_singleton] at ht'
        subst ht'
        rcases List.mem_map.1 ht with ⟨p, hp, hpt⟩
        exact hmem (List.any_eq_true.2 ⟨p, hp, decide_eq_true hpt⟩)

/-- After the top-up pass, either the quota is reached or every scanned
ticker is already among the picks. -/
lemma topUp_complete (n : ℕ) (scan : List Candidate) :
    ∀ acc, acc.length ≤ n →
      (topUp n scan acc).length = n ∨
        ∀ c ∈ scan, ∃ p ∈ topUp n scan acc, p.ticker = c.ticker := by
  induction scan with
  | nil => intro acc _; exact Or.inr (by simp)
  | cons cand rest ih =>
    intro acc hle
    rw [topUp]
    by_cases hfull : n ≤ acc.length
    · rw [if_pos hfull]; exact Or.inl (le_antisymm hle hfull)
    · rw [if_neg hfull]
      by_cases hmem : (acc.any fun p => p.ticker = cand.ticker) = true
      · rw [if_pos hmem]
        rcases ih acc hle with h | h
        · exact Or.inl h
        · refine Or.inr ?_
          intro c hc
          rcases List.mem_cons.1 hc with rfl | hc
          · rcases List.any_eq_true.1 hmem with ⟨p, hp, hpt⟩
            obtain ⟨e, he, _⟩ := topUp_extends n rest acc
            exact ⟨p, he ▸ List.mem_append_left _ hp, of_decide_eq_true hpt⟩
          · exact h c hc
      · rw [if_neg hmem]
        rcases ih (acc ++ [cand]) (by simpa using Nat.lt_of_not_le hfull) with h | h
        · exact Or.inl h
        · refine Or.inr ?_
          intro c hc
          rcases List.mem_cons.1 hc with hceq | hc
          · obtain ⟨e, he, _⟩ := topUp_extends n rest (acc ++ [cand])
            refine ⟨cand, he ▸ List.mem_append_left _
              (List.mem_append_right _ (List.mem_singleton_self _)), ?_⟩
            rw [hceq]
          · exact h c hc

/-- Two lists of distinct tickers that contain each other's tickers have
equal length. -/
lemma nodup_subset_length_eq {xs ys : List String}
    (hx : xs.Nodup) (hy : ys.Nodup) (hxy : xs ⊆ ys) (hyx : ys ⊆ xs) :
    xs.length = ys.length :=
  le_antisymm (hx.subperm hxy).length_le (hy.subperm hyx).length_le

/-- C2: for every eligible candidate list with pairwise-distinct tickers
and every target count `n`, the diversification selector returns exactly
`min n (length)` picks, each drawn from the list, with no ticker
repeated — the correlation constraint never shrinks the final count. -/
theorem pick_topup_guarantee (l : List Candidate) (n : ℕ)
    (hnd : (l.map (·.ticker)).Nodup) :
    (pickWithDiversification l n).length = min n l.length ∧
      pickWithDiversification l n ⊆ l ∧
      ((pickWithDiversification l n).map (·.ticker)).Nodup := by
  obtain ⟨g0, hg0, hgs⟩ := greedyPhase_extends n l []
  have hg : greedyPhase n l [] = g0 := by simpa using hg0
  have hgsub : (greedyPhase n l []).Sublist l := hg ▸ hgs
  have hglen : (greedyPhase n l []).length ≤ n :=
    greedyPhase_length_le n l [] (by simp)
  have hgmem : greedyPhase n l [] ⊆ l := hgsub.subset
  have hgnd : ((greedyPhase n l []).map (·.ticker)).Nodup :=
    (hgsub.map _).nodup hnd
  have hunf : pickWithDiversification l n =
      (if (greedyPhase n l []).length < n then
        topUp n l (greedyPhase n l []) else greedyPhase n l []).take n := rfl
  rw [hunf]
  by_cases hlt : (greedyPhase n l []).length < n
  · rw [if_pos hlt]
    obtain ⟨e, he, hes⟩ := topUp_extends n l (greedyPhase n l [])
    have hrsub : topUp n l (greedyPhase n l []) ⊆ l := by
      intro c hc
      rw [he] at hc
      rcases List.mem_append.1 hc with hc | hc
      · exact hgmem hc
      · exact hes c hc
    have hrnd : ((topUp n l (greedyPhase n l [])).map (·.ticker)).Nodup :=
      topUp_tickers_nodup n l _ hgnd
    have hrlen : (topUp n l (greedyPhase n l [])).length ≤ n :=
      topUp_length_le n l _ hglen
    have hrmapsub : (topUp n l (greedyPhase n l [])).map (·.ticker) ⊆
        l.map (·.ticker) := fun t ht => by
      rcases List.mem_map.1 ht with ⟨c, hc, rfl⟩
      exact List.mem_map.2 ⟨c, hrsub hc, rfl⟩
    have hrl : (topUp n l (greedyPhase n l [])).length ≤ l.length := by
      have := (hrnd.subperm hrmapsub).length_le
      simpa using this
    have htake_sub : (topUp n l (greedyPhase n l [])).take n ⊆ l :=
      fun c hc => hrsub ((List.take_sublist _ _).subset hc)
    have htake_nd : (((topUp n l (greedyPhase n l [])).take n).map
        (·.ticker)).Nodup := by
      rw [List.map_take]
      exact (List.take_sublist _ _).nodup hrnd
    rcases topUp_complete n l (greedyPhase n l []) hglen with hc | hc
    · have hnl : n ≤ l.length := hc ▸ hrl
      refine ⟨?_, htake_sub, htake_nd⟩
      rw [List.length_take, hc, min_self, min_eq_left hnl]
    · have hlrmap : l.map (·.ticker) ⊆
          (topUp n l (greedyPhase n l [])).map (·.ticker) := fun t ht => by
        rcases List.mem_map.1 ht with ⟨c, hcl, rfl⟩
        obtain ⟨p, hpr, hpt⟩ := hc c hcl
        exact List.mem_map.2 ⟨p, hpr, hpt⟩
      have heq : (topUp n l (greedyPhase n l [])).length = l.length := by
        have := nodup_subset_length_eq hrnd hnd hrmapsub hlrmap
        simpa using this
      refine ⟨?_, htake_sub, htake_nd⟩
      rw [List.length_take, heq]
  · rw [if_neg hlt]
    have hn : (greedyPhase n l []).length = n :=
      le_antisymm hglen (Nat.not_lt.1 hlt)
    have hnl : n ≤ l.length := hn ▸ hgsub.length_le
    refine ⟨?_, fun c hc => hgmem ((List.take_sublist _ _).subset hc), ?_⟩
    · rw [List.length_take, hn, min_self, min_eq_left hnl]
    · rw [List.map_take]
      exact (List.take_sublist _ _).nodup hgnd

/-- Lookup in the updated streak mapping: exactly the buy-list tickers
are present, each bound to previous-count-plus-one. -/
lemma newStreaks_lookup (buy4 : List Candidate) (streaks : List (String × ℕ))
    (t : String) :
    List.lookup t (newStreaks buy4 streaks) =
      if (buy4.map (·.ticker)).contains t then
        some ((List.lookup t streaks).getD 0 + 1)
      else none := by
  induction buy4 with
  | nil => simp [newStreaks]
  | cons p rest ih =>
    show List.lookup t ((p.ticker, (List.lookup p.ticker streaks).getD 0 + 1) ::
      newStreaks rest streaks) = _
    rw [List.lookup_cons]
    by_cases hpt : t == p.ticker
    · have ht : t = p.ticker := eq_of_beq hpt
      rw [hpt]
      have hc : ((p :: rest).map (·.ticker)).contains t = true := by
        simp [ht]
      rw [if_pos hc, ht]
    · rw [Bool.eq_false_iff.2 hpt, ih]
      have hne : ¬ t = p.ticker := fun hh => hpt (beq_of_eq hh)
      by_cases hc : (rest.map (·.ticker)).contains t
      · rw [if_pos hc, if_pos (by simp_all)]
      · rw [if_neg hc, if_neg (by simp_all)]

/-- Inversion for an emitted Candidate: its eligibility follows from its
trend flag, and its volume-surge field is either absent or the JavaScript
quotient of the latest volume by the 20-day average volume. -/
lemma scoreInstr_fields (tickers : TickerMap) (ticker : String)
    (rows : List Bar) (ctx : Ctx) (streaks : List (String × ℕ))
    (prevBuy4 : List String) (c : Candidate)
    (h : scoreInstr tickers ticker rows ctx streaks prevBuy4 = some c) :
    (c.trendStrong = true → c.eligible = true) ∧
    (c.volSurge = none ∨
      ∃ m, sma (rows.map (·.v)) 20 = some m ∧
        c.volSurge = some (jsDiv (last (rows.map (·.v))) m)) := by
  simp only [scoreInstr] at h
  split at h
  · exact Option.noConfusion h
  split at h <;> try exact Option.noConfusion h
  split at h <;> try exact Option.noConfusion h
  split at h
  · exact Option.noConfusion h
  split at h
  · exact Option.noConfusion h
  have hc := Option.some.inj h
  subst hc
  constructor
  · intro ht
    simp only [Bool.and_eq_true] at ht
    simp only [Bool.and_eq_true, Bool.or_eq_true]
    exact ⟨ht.1.1, Or.inr (Or.inl (by simp [ht.1.1, ht.1.2, ht.2]))⟩
  · by_cases hlen : 21 ≤ (rows.map (·.v)).length
    · rcases hm : sma (rows.map (·.v)) 20 with _ | m
      · left
        have hlen' : 21 ≤ rows.length := by simpa using hlen
        simp [hlen, hlen', hm]
      · right
        refine ⟨m, hm, ?_⟩
        have hlen' : 21 ≤ rows.length := by simpa using hlen
        simp [hlen, hlen', hm]
    · left
      have hlen' : ¬ 21 ≤ rows.length := by simpa using hlen
      simp [hlen, hlen']

-- ==================== Claim theorems ====================

/-- C1: in the greedy phase of the diversification selector, no pair of
accepted picks (in either order) has a finite pairwise correlation above
the `CORR_MAX = 0.85` threshold, and no accepted pick has a return series
shorter than the `CORR_LOOKBACK = 60` correlation window. -/
theorem greedy_diversification_invariant (l : List Candidate) (n : ℕ) :
    ((greedyPhase n l []).Pairwise fun p q =>
        (¬ ∃ v, corr p.retSeries q.retSeries = some v ∧ (CORR_MAX : ℝ) < v) ∧
        (¬ ∃ v, corr q.retSeries p.retSeries = some v ∧ (CORR_MAX : ℝ) < v)) ∧
      ∀ c ∈ greedyPhase n l [], CORR_LOOKBACK ≤ c.retSeries.length := by
  obtain ⟨hp, hl⟩ := greedyPhase_corr n l [] List.Pairwise.nil (by simp)
  refine ⟨hp.imp ?_, hl⟩
  intro p q hpq
  have hqp : ¬ ∃ v, corr q.retSeries p.retSeries = some v ∧ (CORR_MAX : ℝ) < v := by
    intro hex
    have hx := (corrExceeds_iff _ _).2 hex
    rw [hpq] at hx
    exact Bool.false_ne_true hx
  refine ⟨?_, hqp⟩
  intro hex
  rw [corr_swap p.retSeries q.retSeries] at hex
  exact hqp hex

/-- C10: the Pearson-correlation helper is symmetric in its two
arguments, so the diversification check does not depend on which series
is the candidate's and which is the accepted pick's. -/
theorem corr_symmetric (a b : List ℚ) : corr a b = corr b a :=
  corr_swap a b

/-- C7: when the SPY series is absent or shorter than 210 bars, the
regime detector fails open: both flags are `true` and all three
benchmark metrics are the unavailable marker. -/
theorem regime_fail_open (tickers : TickerMap)
    (h : List.lookup "SPY" tickers = none ∨
      ∃ spy, List.lookup "SPY" tickers = some spy ∧ spy.length < 210) :
    computeMarketRegime tickers = ⟨true, true, none, none, none⟩ := by
  unfold computeMarketRegime
  rcases h with h | ⟨spy, hspy, hlen⟩
  · rw [h]
  · rw [hspy]
    simp only [if_pos hlen]

/-- Witness for C7 at the empty input map. -/
theorem regime_fail_open_witness :
    computeMarketRegime ([] : TickerMap) = ⟨true, true, none, none, none⟩ :=
  regime_fail_open ([] : TickerMap) (Or.inl rfl)

/-- C6: the ranked results are ordered by eligibility first (no
ineligible candidate precedes an eligible one) and by score within equal
eligibility. -/
theorem ranking_order (tickers : TickerMap) (ctx : Ctx)
    (streaks : List (String × ℕ)) (prevBuy4 : List String) :
    (rankedResults tickers ctx streaks prevBuy4).Pairwise fun a b =>
      (b.eligible = true → a.eligible = true) ∧
      (a.eligible = b.eligible → b.score ≤ a.score) := by
  have hs : (rankedResults tickers ctx streaks prevBuy4).Pairwise candBefore :=
    List.sorted_insertionSort candBefore _
  refine hs.imp ?_
  intro a b hab
  constructor
  · intro hb
    by_contra ha
    have ha' : a.eligible = false := Bool.not_eq_true _ ▸ Bool.eq_false_iff.2 ha
    have hra : candRank a = 1 := by simp [candRank, ha']
    have hrb : candRank b = 0 := by simp [candRank, hb]
    rcases hab with h | ⟨h, _⟩
    · rw [hra, hrb] at h; exact absurd h (by norm_num)
    · rw [hra, hrb] at h; exact absurd h (by norm_num)
  · intro heq
    rcases hab with h | ⟨_, hsle⟩
    · have : candRank a = candRank b := by simp [candRank, heq]
      rw [this] at h
      exact absurd h (lt_irrefl _)
    · exact hsle

/-- C8: the persisted streak mapping after a run contains exactly the
new buy-list's tickers, each mapped to one plus its previous count (zero
when absent), so consecutive selection strictly increases the count; and
the streak's scoring penalty `0.01 * min(5, streak)` is capped at streak
value 5 — any streak of at least 5 scores identically to a streak of 5,
and (with the short-regime factor on and no ATR rescaling) the score
differs from the streak-0 score by exactly `0.01 * min(5, streak)`. -/
theorem streak_update_and_cap :
    (∀ (buy4 : List Candidate) (streaks : List (String × ℕ)) (t : String),
      List.lookup t (newStreaks buy4 streaks) =
        if (buy4.map (·.ticker)).contains t then
          some ((List.lookup t streaks).getD 0 + 1)
        else none) ∧
    (∀ (buy4 : List Candidate) (streaks : List (String × ℕ)) (t : String) (k : ℕ),
      List.lookup t streaks = some k →
      (buy4.map (·.ticker)).contains t = true →
      List.lookup t (newStreaks buy4 streaks) = some (k + 1) ∧ k < k + 1) ∧
    (∀ (ctx : Ctx) (r20 r60 : ℚ) (ts : Bool) (vol20 : ℝ) (s : ℕ)
      (rs60 : Option ℚ) (vs : Option JsVal) (atr : Option ℚ) (pb : Bool),
      5 ≤ s →
      computeScore ctx r20 r60 ts vol20 s rs60 vs atr pb =
        computeScore ctx r20 r60 ts vol20 5 rs60 vs atr pb) ∧
    (∀ (ctx : Ctx) (r20 r60 : ℚ) (ts : Bool) (vol20 : ℝ) (s : ℕ)
      (rs60 : Option ℚ) (vs : Option JsVal) (pb : Bool),
      ctx.riskOnShort = true →
      computeScore ctx r20 r60 ts vol20 s rs60 vs none pb =
        computeScore ctx r20 r60 ts vol20 0 rs60 vs none pb -
          0.01 * ((min 5 s : ℕ) : ℝ)) := by
  refine ⟨newStreaks_lookup, ?_, ?_, ?_⟩
  · intro buy4 streaks t k hk hc
    rw [newStreaks_lookup, if_pos hc, hk]
    exact ⟨rfl, Nat.lt_succ_self k⟩
  · intro ctx r20 r60 ts vol20 s rs60 vs atr pb hs
    unfold computeScore
    rw [min_eq_left hs, min_self]
  · intro ctx r20 r60 ts vol20 s rs60 vs pb hshort
    unfold computeScore
    rw [hshort]
    rcases rs60 with _ | rv <;> rcases vs with _ | sv <;>
      simp only [Nat.min_zero, Nat.cast_zero, eq_self_iff_true, if_true] <;>
      by_cases hpb : (ctx.lateMode && pb) = true
    all_goals first
      | rw [if_pos hpb, if_pos hpb]
      | rw [if_neg hpb, if_neg hpb]
    all_goals split_ifs <;> ring

/-- Witness for C8: a ticker with prior streak 2 is rebound to 3 after
being selected again, and streaks 7 and 5 yield identical scores. -/
theorem streak_update_witness :
    (List.lookup "A" (newStreaks [candW "A"] [("A", 2)]) = some 3 ∧ 2 < 3) ∧
    (computeScore ⟨true, true, false⟩ 0 0 false 0 7 none none none false =
      computeScore ⟨true, true, false⟩ 0 0 false 0 5 none none none false) ∧
    computeScore ⟨true, true, false⟩ 0 0 false 0 7 none none none false =
      computeScore ⟨true, true, false⟩ 0 0 false 0 0 none none none false -
        0.01 * ((min 5 7 : ℕ) : ℝ) :=
  ⟨by
    have h := streak_update_and_cap.2.1 [candW "A"] [("A", 2)] "A" 2
      (by simp) (by simp [candW])
    simpa using h,
   streak_update_and_cap.2.2.1 ⟨true, true, false⟩ 0 0 false 0 7 none none none
     false (by norm_num),
   streak_update_and_cap.2.2.2 ⟨true, true, false⟩ 0 0 false 0 7 none none
     false rfl⟩

/-- Counterexample to C4 as stated: with a nonzero relative-strength
bonus available, applying the ×0.75 short-regime factor does not commute
with the later additive bonuses — `score(riskOnShort = false)` is not
`0.75 × score(riskOnShort = true)` even with `lateMode` off. -/
theorem short_factor_counterexample :
    ¬ (computeScore ⟨true, false, false⟩ 0 0 false 1 0 (some 1) none none false =
      0.75 * computeScore ⟨true, true, false⟩ 0 0 false 1 0 (some 1) none none false) := by
  norm_num [computeScore]

/-- C4 (amended): the ×0.75 short-regime factor is applied after the
staleness penalty but before the relative-strength and volume-surge
bonuses (the multiplicative ATR scaling commutes with it).  Hence, with
`lateMode` off, the score with `riskOnShort = false` equals 0.75 times
the score with `riskOnShort = true` whenever the relative-strength term
is unavailable and the volume-surge bonus does not fire. -/
theorem short_factor_amended (riskOn late : Bool) (r20 r60 : ℚ) (ts : Bool)
    (vol20 : ℝ) (streak : ℕ) (volSurge : Option JsVal) (atr14p : Option ℚ)
    (pb : Bool) (hlate : late = false)
    (hsurge : ∀ s, volSurge = some s → jsGtOne s = false) :
    computeScore ⟨riskOn, false, late⟩ r20 r60 ts vol20 streak none volSurge
        atr14p pb =
      0.75 * computeScore ⟨riskOn, true, late⟩ r20 r60 ts vol20 streak none
        volSurge atr14p pb := by
  subst hlate
  unfold computeScore
  cases volSurge with
  | none =>
    cases atr14p with
    | none => simp; ring
    | some a => simp; ring
  | some s =>
    have hgt : jsGtOne s = false := hsurge s rfl
    cases atr14p with
    | none => simp [hgt]; ring
    | some a => simp [hgt]; ring

/-- Witness for the amended C4 at a concrete scored configuration with
no relative-strength term and no volume-surge bonus. -/
theorem short_factor_witness :
    computeScore ⟨true, false, false⟩ 0 0 false 1 0 none none none false =
      0.75 * computeScore ⟨true, true, false⟩ 0 0 false 1 0 none none none false :=
  short_factor_amended true false 0 0 false 1 0 none none false rfl
    (fun _ hs => nomatch hs)

/-- C9: eligibility is monotonic in trend — any candidate the scorer
emits with a true trend-strength flag under a risk-off regime is
eligible, regardless of the defensive allowlist. -/
theorem trend_eligibility_monotone (tickers : TickerMap) (ticker : String)
    (rows : List Bar) (short late : Bool) (streaks : List (String × ℕ))
    (prevBuy4 : List String)
    (h : (scoreInstr tickers ticker rows ⟨false, short, late⟩ streaks
        prevBuy4).map (·.trendStrong) = some true) :
    (scoreInstr tickers ticker rows ⟨false, short, late⟩ streaks
        prevBuy4).map (·.eligible) = some true := by
  rcases hsc : scoreInstr tickers ticker rows ⟨false, short, late⟩ streaks
    prevBuy4 with _ | c
  · rw [hsc] at h
    exact Option.noConfusion h
  · rw [hsc] at h
    have ht : c.trendStrong = true := by simpa using h
    have he := (scoreInstr_fields tickers ticker rows ⟨false, short, late⟩
      streaks prevBuy4 c hsc).1 ht
    simp [he]

/-- C5 (amended): every indicator field of an emitted Candidate is a
finite number or the explicit `null` marker, except that the volume-surge
field may be the non-finite result of the unguarded division
`last(vols)/sma(vols,20)` — and only when the 20-day average volume is
zero. -/
theorem candidate_fields_amended (tickers : TickerMap) (ticker : String)
    (rows : List Bar) (ctx : Ctx) (streaks : List (String × ℕ))
    (prevBuy4 : List String) (vs : Option JsVal)
    (h : (scoreInstr tickers ticker rows ctx streaks prevBuy4).map
      (·.volSurge) = some vs) :
    finiteOrNull vs ∨ sma (rows.map (·.v)) 20 = some 0 := by
  rcases hsc : scoreInstr tickers ticker rows ctx streaks prevBuy4 with _ | c
  · rw [hsc] at h
    exact Option.noConfusion h
  · rw [hsc] at h
    have hvs : c.volSurge = vs := by simpa using h
    rcases (scoreInstr_fields tickers ticker rows ctx streaks prevBuy4
      c hsc).2 with hnone | ⟨m, hm, hdiv⟩
    · left
      rw [← hvs, hnone]
      trivial
    · by_cases hm0 : m = 0
      · right
        rw [hm, hm0]
      · left
        rw [← hvs, hdiv]
        unfold jsDiv
        rw [if_pos hm0]
        trivial

-- ---------- Evaluation of the indicators on the concrete series ----------

lemma getD_replicate_of_lt {α : Type} (a d : α) {n i : ℕ} (h : i < n) :
    (List.replicate n a).getD i d = a := by
  rw [List.getD_eq_getElem?_getD, List.getElem?_replicate, if_pos h]
  rfl

lemma closesW_assoc :
    closesW = List.replicate 160 90 ++ (List.replicate 59 100 ++ [101]) := by
  rw [closesW, List.append_assoc]

lemma closesW_length : closesW.length = 220 := by
  rw [closesW]
  rw [List.length_append, List.length_append, List.length_replicate,
    List.length_replicate, List.length_singleton]

lemma closesW_getD (i : ℕ) (d : ℚ) :
    closesW.getD i d =
      if i < 160 then 90
      else if i < 219 then 100
      else if i = 219 then 101
      else d := by
  rw [closesW_assoc, List.getD_eq_getElem?_getD, List.getElem?_append,
    List.length_replicate]
  by_cases h1 : i < 160
  · rw [if_pos h1, List.getElem?_replicate, if_pos h1, if_pos h1]
    rfl
  · rw [if_neg h1, if_neg h1, List.getElem?_append, List.length_replicate]
    by_cases h2 : i < 219
    · have h2' : i - 160 < 59 := by omega
      rw [if_pos h2', List.getElem?_replicate, if_pos h2', if_pos h2]
      rfl
    · rw [if_neg (by omega : ¬ i - 160 < 59), if_neg h2]
      by_cases h3 : i = 219
      · have h0 : i - 160 - 59 = 0 := by omega
        rw [h0, if_pos h3]
        rfl
      · have h1' : 1 ≤ i - 160 - 59 := by omega
        rw [if_neg h3]
        rcases Nat.exists_eq_add_of_le h1' with ⟨k, hk⟩
        rw [hk, Nat.add_comm, List.getElem?_cons_succ, List.getElem?_nil]
        rfl

lemma sma_closesW_20 : sma closesW 20 = some (2001/20) := by
  rw [sma, if_neg (by rw [closesW_length]; norm_num), closesW_length,
    closesW_assoc]
  rw [show (220 - 20 : ℕ) = 200 from rfl,
    List.drop_append_eq_append_drop, List.drop_replicate,
    List.drop_append_eq_append_drop, List.drop_replicate]
  norm_num

lemma sma_closesW_50 : sma closesW 50 = some (5001/50) := by
  rw [sma, if_neg (by rw [closesW_length]; norm_num), closesW_length,
    closesW_assoc]
  rw [show (220 - 50 : ℕ) = 170 from rfl,
    List.drop_append_eq_append_drop, List.drop_replicate,
    List.drop_append_eq_append_drop, List.drop_replicate]
  norm_num

lemma sma_closesW_200 : sma closesW 200 = some (18601/200) := by
  rw [sma, if_neg (by rw [closesW_length]; norm_num), closesW_length,
    closesW_assoc]
  rw [show (220 - 200 : ℕ) = 20 from rfl,
    List.drop_append_eq_append_drop, List.drop_replicate,
    List.drop_append_eq_append_drop, List.drop_replicate]
  norm_num

lemma sma_replicate220 (v : ℚ) :
    sma (List.replicate 220 v) 20 = some v := by
  rw [sma, if_neg (by rw [List.length_replicate]; norm_num), List.length_replicate]
  rw [show (220 - 20 : ℕ) = 200 from rfl, List.drop_replicate]
  rw [show (220 - 200 : ℕ) = 20 from rfl, List.sum_replicate, nsmul_eq_mul]
  norm_num

lemma last_closesW : last closesW = 101 := by
  rw [last, closesW]
  exact List.getLastD_concat _ _ _

lemma last_replicate220 (v : ℚ) : last (List.replicate 220 v) = v := by
  rw [last, show (220:ℕ) = 219 + 1 from rfl, List.replicate_add,
    List.replicate_one]
  exact List.getLastD_concat _ _ _

lemma closesW_getElem (i : ℕ) :
    closesW[i]?.getD 0 =
      if i < 160 then (90:ℚ)
      else if i < 219 then 100
      else if i = 219 then 101
      else 0 := by
  rw [← List.getD_eq_getElem?_getD, closesW_getD]

lemma ret_closesW_10 : ret closesW 10 = some (1/100) := by
  rw [ret, if_neg (by rw [closesW_length]; norm_num), closesW_length,
    last_closesW]
  rw [show (220 - 1 - 10 : ℕ) = 209 from rfl, closesW_getD]
  norm_num

lemma ret_closesW_20 : ret closesW 20 = some (1/100) := by
  rw [ret, if_neg (by rw [closesW_length]; norm_num), closesW_length,
    last_closesW]
  rw [show (220 - 1 - 20 : ℕ) = 199 from rfl, closesW_getD]
  norm_num

lemma ret_closesW_60 : ret closesW 60 = some (11/90) := by
  rw [ret, if_neg (by rw [closesW_length]; norm_num), closesW_length,
    last_closesW]
  rw [show (220 - 1 - 60 : ℕ) = 159 from rfl, closesW_getD]
  norm_num

lemma returns_closesW_21 :
    returns closesW 21 = List.replicate 20 0 ++ [1/100] := by
  have hrep : List.replicate 20 (0:ℚ) ++ [1/100] =
      [0, 0, 0, 0, 0, 0, 0, 0, 0, 0, 0, 0, 0, 0, 0, 0, 0, 0, 0, 0, 1/100] := rfl
  rw [hrep, returns, closesW_length]
  rw [show max 1 (220 - 21) = 199 from rfl, show (220 - 199 : ℕ) = 21 from rfl]
  rw [show List.range 21 =
    [0, 1, 2, 3, 4, 5, 6, 7, 8, 9, 10, 11, 12, 13, 14, 15, 16, 17, 18, 19, 20]
    from rfl]
  simp only [List.map_cons, List.map_nil]
  norm_num [closesW_getElem]

lemma last20Returns_closesW :
    last20Returns closesW = List.replicate 19 0 ++ [1/100] := by
  have hrep : List.replicate 19 (0:ℚ) ++ [1/100] =
      [0, 0, 0, 0, 0, 0, 0, 0, 0, 0, 0, 0, 0, 0, 0, 0, 0, 0, 0, 1/100] := rfl
  rw [hrep, last20Returns, closesW_length]
  rw [show List.range 20 =
    [0, 1, 2, 3, 4, 5, 6, 7, 8, 9, 10, 11, 12, 13, 14, 15, 16, 17, 18, 19]
    from rfl]
  simp only [List.map_cons, List.map_nil]
  norm_num [closesW_getElem]

lemma stdevSq_rep20 :
    stdevSq (List.replicate 20 (0:ℚ) ++ [1/100]) = 1/220500 := by
  have hrep : List.replicate 20 (0:ℚ) ++ [1/100] =
      [0, 0, 0, 0, 0, 0, 0, 0, 0, 0, 0, 0, 0, 0, 0, 0, 0, 0, 0, 0, 1/100] := rfl
  rw [hrep]
  norm_num [stdevSq, mean]

lemma stdevSq_rep19 :
    stdevSq (List.replicate 19 (0:ℚ) ++ [1/100]) = 19/4000000 := by
  have hrep : List.replicate 19 (0:ℚ) ++ [1/100] =
      [0, 0, 0, 0, 0, 0, 0, 0, 0, 0, 0, 0, 0, 0, 0, 0, 0, 0, 0, 1/100] := rfl
  rw [hrep]
  norm_num [stdevSq, mean]

lemma atr_closesW : atrPercent closesW closesW closesW 14 = some (1/1414) := by
  simp only [atrPercent, closesW_length, last_closesW]
  rw [if_neg (by norm_num)]
  rw [show List.range 14 = [0, 1, 2, 3, 4, 5, 6, 7, 8, 9, 10, 11, 12, 13]
    from rfl]
  simp only [List.map_cons, List.map_nil]
  norm_num [closesW_getElem]

lemma relStrength60_noSPY (X : List Bar) :
    relStrength60 [("AAA", X)] "AAA" = none := by
  have h : List.lookup "SPY" [("AAA", X)] = (none : Option (List Bar)) := rfl
  simp [relStrength60, h]

set_option maxRecDepth 8000 in
/-- Full evaluation of the scorer loop body on the 220-bar test series
`rowsW v`: the instrument passes every filter and is emitted with a
strict trend chain, eligibility, no relative-strength term (no SPY in the
map), and volume surge `jsDiv v v`. -/
lemma scoreInstr_rowsW (v : ℚ) (ctx : Ctx) (streaks : List (String × ℕ))
    (prevBuy4 : List String) :
    scoreInstr [("AAA", rowsW v)] "AAA" (rowsW v) ctx streaks prevBuy4 =
      some ⟨"AAA", 101, 1/100, 11/90,
        stdev (List.replicate 20 0 ++ [1/100]), some (1/1414),
        some (jsDiv v v), none, true, true,
        computeScore ctx (1/100) (11/90) true
          (stdev (List.replicate 20 0 ++ [1/100]))
          ((List.lookup "AAA" streaks).getD 0) none (some (jsDiv v v))
          (some (1/1414)) (prevBuy4.contains "AAA"),
        returns closesW (CORR_LOOKBACK + 1)⟩ := by
  have hc : (rowsW v).map (·.c) = closesW := rfl
  have hh : (rowsW v).map (·.h) = closesW := rfl
  have hl : (rowsW v).map (·.l) = closesW := rfl
  have hv : (rowsW v).map (·.v) = List.replicate 220 v := rfl
  have hlen : (rowsW v).length = 220 := rfl
  have t1 : ((101:ℚ) > 2001/20) = True := eq_true (by norm_num)
  have t2 : ((2001:ℚ)/20 > 5001/50) = True := eq_true (by norm_num)
  have t3 : ((5001:ℚ)/50 > 18601/200) = True := eq_true (by norm_num)
  have f1 : (0 < (1/100:ℚ) ∧ (1/100:ℚ) < 0.35 * (1/100)) = False :=
    eq_false (by norm_num)
  have f2 : ((1/220500:ℚ) ≤ 0) = False := eq_false (by norm_num)
  simp only [scoreInstr, hlen, hc, hh, hl, hv, MIN_HISTORY, last_closesW,
    sma_closesW_20, sma_closesW_50, sma_closesW_200, ret_closesW_10,
    ret_closesW_20, ret_closesW_60, returns_closesW_21, stdevSq_rep20,
    atr_closesW, relStrength60_noSPY, sma_replicate220, last_replicate220,
    List.length_replicate, t1, t2, t3, f1, f2]
  norm_num

/-- Counterexample to C5 as stated: on a well-formed 220-bar input whose
volumes are all zero, the scorer emits a Candidate whose volume-surge
field is the JavaScript `NaN` (from the unguarded `0/0`) — a silently
propagated non-finite value rather than the `null` marker. -/
theorem volsurge_nan_counterexample :
    (scoreInstr [("AAA", rowsW 0)] "AAA" (rowsW 0) ⟨true, true, false⟩ []
      []).map (·.volSurge) = some (some JsVal.nan) := by
  rw [scoreInstr_rowsW]
  simp [jsDiv]

/-- Witness for the amended C5: on the same series with unit volumes the
emitted volume-surge field is the finite number `1`. -/
theorem candidate_fields_witness :
    finiteOrNull (some (JsVal.num 1)) ∨
      sma ((rowsW 1).map (·.v)) 20 = some 0 :=
  candidate_fields_amended [("AAA", rowsW 1)] "AAA" (rowsW 1)
    ⟨true, true, false⟩ [] [] (some (JsVal.num 1))
    (by rw [scoreInstr_rowsW]; norm_num [jsDiv])

/-- Witness for C9: a concrete 220-bar series with a strict
`lastClose > MA20 > MA50 > MA200` chain is emitted with
`trendStrong = true` and, under a risk-off regime, `eligible = true`. -/
theorem trend_eligibility_witness :
    (scoreInstr [("AAA", rowsW 1)] "AAA" (rowsW 1) ⟨false, true, false⟩ []
        []).map (·.trendStrong) = some true ∧
    (scoreInstr [("AAA", rowsW 1)] "AAA" (rowsW 1) ⟨false, true, false⟩ []
        []).map (·.eligible) = some true := by
  have ht : (scoreInstr [("AAA", rowsW 1)] "AAA" (rowsW 1)
      ⟨false, true, false⟩ [] []).map (·.trendStrong) = some true := by
    rw [scoreInstr_rowsW]
    rfl
  exact ⟨ht, trend_eligibility_monotone _ _ _ true false _ _ ht⟩

/-- C3: the realized-volatility field is the population standard
deviation of the last 21 single-day returns, not the last 20 — the
source helper `returns(closes, 21)` produces 21 returns for a series
longer than 21 bars (its loop starts at `length - window`), contradicting
the in-source comments "last (window-1) daily returns" and
"=> CORR_LOOKBACK returns".  At the concrete 220-bar input `rowsW 1` the
emitted `vol20` differs from the specification's 20-return standard
deviation. -/
theorem vol20_window_code_bug :
    (scoreInstr [("AAA", rowsW 1)] "AAA" (rowsW 1) ⟨true, true, false⟩ []
        []).map (·.vol20) = some (stdev (List.replicate 20 0 ++ [1/100])) ∧
      returns closesW 21 = List.replicate 20 0 ++ [1/100] ∧
      stdev (List.replicate 20 0 ++ [1/100]) ≠ specVol20 closesW := by
  refine ⟨by rw [scoreInstr_rowsW]; rfl, returns_closesW_21, ?_⟩
  unfold specVol20 stdev
  rw [last20Returns_closesW, stdevSq_rep20, stdevSq_rep19]
  intro h
  have h' : ((1/220500 : ℚ) : ℝ) = ((19/4000000 : ℚ) : ℝ) :=
    (Real.sqrt_inj (by positivity) (by positivity)).1 h
  have hq : (1/220500 : ℚ) = 19/4000000 := by exact_mod_cast h'
  norm_num at hq

/-- Witness instance for C1 at a concrete two-candidate list. -/
theorem greedy_diversification_witness :
    ((greedyPhase 4 listW []).Pairwise fun p q =>
        (¬ ∃ v, corr p.retSeries q.retSeries = some v ∧ (CORR_MAX : ℝ) < v) ∧
        (¬ ∃ v, corr q.retSeries p.retSeries = some v ∧ (CORR_MAX : ℝ) < v)) ∧
      ∀ c ∈ greedyPhase 4 listW [], CORR_LOOKBACK ≤ c.retSeries.length :=
  greedy_diversification_invariant listW 4

/-- Witness for C2 at a two-candidate list with distinct tickers. -/
theorem pick_topup_witness :
    (pickWithDiversification listW 4).length = min 4 listW.length ∧
      pickWithDiversification listW 4 ⊆ listW ∧
      ((pickWithDiversification listW 4).map (·.ticker)).Nodup :=
  pick_topup_guarantee listW 4 (by simp [listW, candW])

/-- Witness instance for C6 at the empty input map. -/
theorem ranking_order_witness :
    (rankedResults [] ⟨true, true, false⟩ [] []).Pairwise fun a b =>
      (b.eligible = true → a.eligible = true) ∧
      (a.eligible = b.eligible → b.score ≤ a.score) :=
  ranking_order [] ⟨true, true, false⟩ [] []

/-- Witness instance for C10 at concrete series. -/
theorem corr_symmetric_witness :
    corr (List.replicate 60 0) (List.replicate 60 1) =
      corr (List.replicate 60 1) (List.replicate 60 0) :=
  corr_symmetric (List.replicate 60 0) (List.replicate 60 1)

end TradingDay
